import Mathlib

/-!
# The cpio block cache of aeon (`block_loader_cpio_cache.cpp`)

A shallow embedding of `nervana::block_loader_cpio_cache` and theorems about it.

* Strings are lists of characters; `std::string::find` is modelled by `find`.
* The root cache directory is a list of named entries (`FS`); a path
  `path_join(dir, name)` is represented by the entry `name` of `dir`.
* The collaborators that live outside the file (the primary loader, the cpio codec,
  the advisory lock, `release_lock`) are parameters: the outcome of each of their
  calls is supplied by the caller of the model (`Outcomes`, `BlockFile`, `fd`).
* Every call that changes the outside world is recorded in a log of `Event`s.
-/

namespace Aeon

/-! ## Strings -/

/-- A `std::string`: a sequence of characters. -/
abbrev Str := List Char

/-- Search of `std::string::find(pat)` in the text `s`, started at index `i` of the whole
string: the first index at which `pat` occurs, if there is one. -/
def findFrom (pat : Str) : Str → Nat → Option Nat
  | [], i => if pat.isPrefixOf [] then some i else none
  | c :: t, i => if pat.isPrefixOf (c :: t) then some i else findFrom pat t (i + 1)

/-- The call `s.find(pat)` of `std::string`: the position of the first occurrence of `pat`
in `s`; `none` stands for `std::string::npos`. -/
def find (s pat : Str) : Option Nat := findFrom pat s 0

/-- The predicate `block_loader_cpio_cache::filename_holds_invalid_cache`. -/
def filename_holds_invalid_cache (filename cache_id version : Str) : Bool :=
  if find filename cache_id ≠ some 0 then
    -- filename doesn't start with cache_id, dont remove it
    false
  else if find filename version = none then
    -- filename does start with cache_id, but doesnt have version, invalidate
    true
  else
    -- filename does start with cache_id and does have version, keep, its valid
    false

/-! ## Buffers and cpio block files -/

/-- The message of a `std::exception`. -/
abbrev Err := Str

/-- One record: the bytes of a `std::vector<char>`. -/
abbrev Record := List Nat

/-- Modelled from the spec: one element of a `buffer_in` (`buffer_in.hpp` is not among the
sources): each element of the destination can carry a deferred error of its own, so an
element is an item, or the exception that `add_exception` stored in its place. -/
inductive Slot where
  | item (r : Record)
  | failed (e : Err)
deriving DecidableEq, Repr

/-- A `buffer_in`: the elements added so far, oldest first. -/
abbrev buffer_in := List Slot

/-- A `buffer_in_array`: the buffers that `for (auto d : dest)` walks through, in order. -/
abbrev buffer_in_array := List buffer_in

/-- Modelled from the spec: what one call of `cpio::file_reader::read` does (`cpio.cpp` is
not among the sources): it decodes one item into the buffer, or it raises a decode error
and leaves the buffer as it was. -/
inductive ReadOutcome where
  | record (r : Record)
  | throws (e : Err)
deriving DecidableEq, Repr

/-- A cpio block file as `cpio::file_reader` sees it: the value of `itemCount()` and the
outcome of the first, second, ... call of `read` after `open`. -/
structure BlockFile where
  itemCount : Nat
  reads : List ReadOutcome
deriving DecidableEq, Repr

/-- The outcome of the `k`-th call of `reader.read` (counted from 0); a read past the end
of the file throws. -/
def BlockFile.read (f : BlockFile) (k : Nat) : ReadOutcome :=
  f.reads.getD k (ReadOutcome.throws "read past the end of the cpio file".toList)

/-- The element a buffer gets from one read attempt. -/
def Slot.ofRead : ReadOutcome → Slot
  | ReadOutcome.record r => Slot.item r
  | ReadOutcome.throws e => Slot.failed e

/-- The body of the inner loop of `load_block_from_cache`, on the `k`-th read attempt:
`try { reader.read(*d); } catch (std::exception& e) { d->add_exception(...); }`. -/
def read_or_add_exception (f : BlockFile) (k : Nat) (d : buffer_in) : buffer_in :=
  match f.read k with
  | ReadOutcome.record r => d ++ [Slot.item r]
  | ReadOutcome.throws e => d ++ [Slot.failed e]

/-- The inner loop `for (auto d : dest)` of `load_block_from_cache`, entered when `k` reads
have been attempted: the buffers afterwards and the number of reads attempted by then. -/
def read_item (f : BlockFile) : Nat → buffer_in_array → buffer_in_array × Nat
  | k, [] => ([], k)
  | k, d :: ds =>
    let r := read_item f (k + 1) ds
    (read_or_add_exception f k d :: r.1, r.2)

/-- The outer loop `for (int i = 0; i < reader.itemCount(); ++i)` of `load_block_from_cache`
with `n` iterations to go and `k` reads attempted. -/
def read_items (f : BlockFile) : Nat → Nat → buffer_in_array → buffer_in_array × Nat
  | 0, k, dest => (dest, k)
  | n + 1, k, dest =>
    let r := read_item f k dest
    read_items f n r.2 r.1

/-! ## The cache directory and the cache object -/

/-- The content of one cache directory `_cacheDir`. -/
structure CacheDir where
  /-- The cpio block files, by file name, newest first. -/
  files : List (Str × BlockFile)
  /-- Whether the file `cache_complete_filename` exists. -/
  complete : Bool
  /-- The descriptor that holds the lock on `owner_lock_filename`, if it is held. -/
  lock : Option Int
deriving DecidableEq, Repr

/-- The member variables of a `block_loader_cpio_cache`. `ownership_lock` is `none` until
`take_ownership` assigns it: the constructor's initialiser list leaves it out. -/
structure Cache where
  _block_size : Nat
  block_count : Nat
  cache_owner : Bool
  ownership_lock : Option Int
  _cacheDir : Str
deriving DecidableEq, Repr

/-- The calls by which the cache acts on the outside world. -/
inductive Event where
  | remove_directory (name : Str)
  | make_directory (name : Str)
  | try_get_lock (result : Int)
  | loader_load_block (block_num : Nat)
  | write_block (block_num : Nat)
  | mark_cache_complete
  | release_lock (handle : Option Int)
  | cerr (what : Err)
deriving DecidableEq, Repr

/-- The cache directory of an instance together with the calls made so far, oldest
first. `write_block n` is logged when `write_block_to_cache(_, n)` has returned. -/
structure World where
  dir : CacheDir
  log : List Event
deriving DecidableEq, Repr

/-- What `cpio::file_writer` does in one `write_block_to_cache`: it leaves a block file, or
one of `open`, `write_all_records`, `close` throws. -/
inductive WriteOutcome where
  | written (f : BlockFile)
  | throws (e : Err)
deriving DecidableEq, Repr

/-- What the collaborators do during one call of `load_block`. -/
structure Outcomes where
  /-- The primary loader's `load_block(dest, block_num)`: `dest` afterwards, and the
  exception if it throws. -/
  loader_load_block : Nat → buffer_in_array → buffer_in_array × Option Err
  /-- The cpio writer, given the buffers to store. -/
  write_all_records : buffer_in_array → WriteOutcome
  /-- The exception that leaves `mark_cache_complete`, if any. -/
  mark : Option Err
  /-- The exception that leaves `file_util::release_lock`, if any. -/
  release : Option Err

/-- The decimal digits of `std::to_string` on an unsigned number. -/
def to_string (n : Nat) : Str := Nat.toDigits 10 n

/-- The name of a block file inside `_cacheDir`, as `block_filename` builds it before the
`path_join` with `_cacheDir`. -/
def block_filename (c : Cache) (block_num : Nat) : Str :=
  to_string block_num ++ "-".toList ++ to_string c._block_size ++ ".cpio".toList

/-- The value of `block_count-1` in `uint32_t` arithmetic. -/
def last_block (c : Cache) : Nat := (c.block_count + 4294967295) % 4294967296

/-- What `load_block_from_cache` leaves: its return value, `dest`, and the number of calls
of `reader.read` it made. -/
structure CacheRead where
  hit : Bool
  dest : buffer_in_array
  attempts : Nat
deriving DecidableEq, Repr

/-- The function `load_block_from_cache`. `reader.open` succeeds exactly when the block
file is in the directory. -/
def load_block_from_cache (c : Cache) (w : World) (dest : buffer_in_array)
    (block_num : Nat) : CacheRead :=
  match w.dir.files.lookup (block_filename c block_num) with
  | none =>
    -- couldn't load the file
    { hit := false, dest := dest, attempts := 0 }
  | some f =>
    -- load cpio file into dest one item at a time
    let r := read_items f f.itemCount 0 dest
    { hit := true, dest := r.1, attempts := r.2 }

/-- The function `write_block_to_cache`: the world afterwards and the exception thrown, if
any. A writer that throws leaves no block file behind. -/
def write_block_to_cache (c : Cache) (o : Outcomes) (w : World) (buff : buffer_in_array)
    (block_num : Nat) : World × Option Err :=
  match o.write_all_records buff with
  | WriteOutcome.throws e => (w, some e)
  | WriteOutcome.written f =>
    ({ dir := { w.dir with files := (block_filename c block_num, f) :: w.dir.files },
       log := w.log ++ [Event.write_block block_num] }, none)

/-- The function `mark_cache_complete`: the `ofstream` creates the marker file, unless an
exception leaves the function first. -/
def mark_cache_complete (o : Outcomes) (w : World) : World × Option Err :=
  match o.mark with
  | some e => (w, some e)
  | none =>
    ({ dir := { w.dir with complete := true },
       log := w.log ++ [Event.mark_cache_complete] }, none)

/-- Modelled from the spec: the effect of `file_util::release_lock(handle, file)` on the
directory, the filesystem collaborator's release of the advisory lock; the lock is given
up when `handle` is the descriptor that holds it. -/
def release_lock (handle : Option Int) (d : CacheDir) : CacheDir :=
  if handle.isSome ∧ d.lock = handle then { d with lock := none } else d

/-- The function `release_ownership`. -/
def release_ownership (c : Cache) (o : Outcomes) (w : World) : World × Option Err :=
  let w1 : World := { w with log := w.log ++ [Event.release_lock c.ownership_lock] }
  match o.release with
  | some e => (w1, some e)
  | none => ({ w1 with dir := release_lock c.ownership_lock w1.dir }, none)

/-- The body of the `try` block of `load_block`. -/
def try_body (c : Cache) (o : Outcomes) (w : World) (dest : buffer_in_array)
    (block_num : Nat) : World × Option Err :=
  match write_block_to_cache c o w dest block_num with
  | (w1, some e) => (w1, some e)
  | (w1, none) =>
    if block_num = last_block c then
      match mark_cache_complete o w1 with
      | (w2, some e) => (w2, some e)
      | (w2, none) => release_ownership c o w2
    else (w1, none)

/-- The `try` block of `load_block` with its handler, which prints the error. -/
def try_catch (c : Cache) (o : Outcomes) (w : World) (dest : buffer_in_array)
    (block_num : Nat) : World :=
  match try_body c o w dest block_num with
  | (w1, some e) => { w1 with log := w1.log ++ [Event.cerr e] }
  | (w1, none) => w1

/-- What a call of `load_block` leaves: the world, `dest`, and the exception that reached
the caller, if any. -/
structure LoadResult where
  world : World
  dest : buffer_in_array
  raised : Option Err
deriving DecidableEq, Repr

/-- The function `load_block`. -/
def load_block (c : Cache) (o : Outcomes) (w : World) (dest : buffer_in_array)
    (block_num : Nat) : LoadResult :=
  let r := load_block_from_cache c w dest block_num
  if r.hit then
    { world := w, dest := r.dest, raised := none }
  else
    let w1 : World := { w with log := w.log ++ [Event.loader_load_block block_num] }
    match o.loader_load_block block_num r.dest with
    | (d1, some e) => { world := w1, dest := d1, raised := some e }
    | (d1, none) => { world := try_catch c o w1 d1 block_num, dest := d1, raised := none }

/-- The directory `rootCacheDir`: whether `opendir` succeeds on it, and its entries in the
order in which `readdir` reports them. -/
structure FS where
  readable : Bool
  entries : List (Str × CacheDir)
deriving DecidableEq, Repr

/-- What a function that may throw leaves: its value or the exception. -/
inductive Outcome (α : Type) where
  | returned (a : α)
  | raised (e : Err)
deriving DecidableEq, Repr

/-- Modelled from the spec: `file_util::remove_directory` on the entry `name` of the root
directory, the filesystem collaborator's recursive directory removal; the entry is gone
with all it holds. -/
def remove_directory (name : Str) (entries : List (Str × CacheDir)) : List (Str × CacheDir) :=
  entries.filter (fun e => e.1 ≠ name)

/-- Modelled from the spec: `file_util::make_directory` on the entry `name` of the root
directory, the filesystem collaborator's directory creation that reports whether the
directory was newly created; a new directory is empty. -/
def make_directory (name : Str) (entries : List (Str × CacheDir)) :
    Bool × List (Str × CacheDir) :=
  match entries.lookup name with
  | some _ => (false, entries)
  | none => (true, entries ++ [(name, { files := [], complete := false, lock := none })])

/-- Modelled from the spec: `file_util::try_get_lock` on the lock file of a cache
directory, the filesystem collaborator's non-blocking exclusive lock; `fd` is the
descriptor the system would hand out (`-1` when the lock file cannot be opened). The
result is `-1` when the lock is held already. -/
def try_get_lock (fd : Int) (d : CacheDir) : Int × CacheDir :=
  if d.lock.isSome then (-1, d)
  else if fd = -1 then (-1, d)
  else (fd, { d with lock := some fd })

/-- Replace the content of the entry `name`. -/
def set_dir (name : Str) (d : CacheDir) : List (Str × CacheDir) → List (Str × CacheDir)
  | [] => []
  | e :: es => if e.1 = name then (e.1, d) :: es else e :: set_dir name d es

/-- The `readdir` loop of `invalidate_old_cache` over the entry names still to come. -/
def invalidate_loop (cache_id version : Str) :
    List Str → List (Str × CacheDir) × List Event → List (Str × CacheDir) × List Event
  | [], s => s
  | name :: rest, s =>
    if filename_holds_invalid_cache name cache_id version then
      invalidate_loop cache_id version rest
        (remove_directory name s.1, s.2 ++ [Event.remove_directory name])
    else
      invalidate_loop cache_id version rest s

/-- The function `invalidate_old_cache`. -/
def invalidate_old_cache (fs : FS) (rootCacheDir cache_id version : Str) :
    Outcome (List (Str × CacheDir) × List Event) :=
  if fs.readable then
    Outcome.returned
      (invalidate_loop cache_id version (fs.entries.map Prod.fst) (fs.entries, []))
  else
    Outcome.raised ("error enumerating old cache in ".toList ++ rootCacheDir)

/-- The function `check_if_complete`: whether the marker file exists. -/
def check_if_complete (c : Cache) (entries : List (Str × CacheDir)) : Bool :=
  match entries.lookup c._cacheDir with
  | some d => d.complete
  | none => false

/-- The function `take_ownership`: the object with `ownership_lock` assigned, the
entries afterwards, and the value of `ownership_lock != -1`. -/
def take_ownership (c : Cache) (fd : Int) (entries : List (Str × CacheDir)) :
    Cache × List (Str × CacheDir) × Bool :=
  match entries.lookup c._cacheDir with
  | none => ({ c with ownership_lock := some (-1) }, entries, false)
  | some d =>
    let r := try_get_lock fd d
    ({ c with ownership_lock := some r.1 }, set_dir c._cacheDir r.2 entries, r.1 ≠ -1)

/-- What a run of the constructor leaves: the root directory, the calls it made, and the
object or the exception. -/
structure Construction where
  entries : List (Str × CacheDir)
  log : List Event
  result : Outcome Cache
deriving DecidableEq, Repr

/-- The constructor `block_loader_cpio_cache(rootCacheDir, cache_id, version, loader)`;
`block_size` and `block_count` are what the loader reports. -/
def construct (fs : FS) (rootCacheDir cache_id version : Str) (block_size block_count : Nat)
    (fd : Int) : Construction :=
  match invalidate_old_cache fs rootCacheDir cache_id version with
  | Outcome.raised e => { entries := fs.entries, log := [], result := Outcome.raised e }
  | Outcome.returned (es, log) =>
    let dir := cache_id ++ "_".toList ++ version
    let made := make_directory dir es
    let log1 := log ++ [Event.make_directory dir]
    -- If I successfully created the directory then it did not exist.
    -- Therefore I am the owner and must write the end-of-data file
    let c : Cache := { _block_size := block_size, block_count := block_count,
                       cache_owner := made.1, ownership_lock := none, _cacheDir := dir }
    if check_if_complete c made.2 = false then
      let t := take_ownership c fd made.2
      let log2 := log1 ++ [Event.try_get_lock (t.1.ownership_lock.getD (-1))]
      if t.2.2 = false then
        { entries := t.2.1, log := log2,
          result := Outcome.raised "dataloader cache incomplete, try again later".toList }
      else
        { entries := t.2.1, log := log2, result := Outcome.returned t.1 }
    else
      { entries := made.2, log := log1, result := Outcome.returned c }

/-- The cache directory of an instance inside the root directory. -/
def cache_dir (c : Cache) (entries : List (Str × CacheDir)) : Option CacheDir :=
  entries.lookup c._cacheDir

/-! ## What the constructor sees -/

/-- The entries of the root directory after `invalidate_old_cache` and `make_directory`,
as `check_if_complete` and `take_ownership` find them. -/
def entries_at_check (fs : FS) (cache_id version : Str) : List (Str × CacheDir) :=
  (make_directory (cache_id ++ "_".toList ++ version)
    (invalidate_loop cache_id version (fs.entries.map Prod.fst) (fs.entries, [])).1).2

/-- Whether the completion marker is in the cache directory when the constructor checks. -/
def marker_present (fs : FS) (cache_id version : Str) : Bool :=
  match (entries_at_check fs cache_id version).lookup (cache_id ++ "_".toList ++ version) with
  | some d => d.complete
  | none => false

/-- What `try_get_lock` returns on the lock file of the cache directory when the
constructor calls it. -/
def lock_attempt (fs : FS) (cache_id version : Str) (fd : Int) : Int :=
  match (entries_at_check fs cache_id version).lookup (cache_id ++ "_".toList ++ version) with
  | some d => (try_get_lock fd d).1
  | none => -1

/-- Whether a run of the constructor ended in an exception. -/
def Construction.raises (r : Construction) : Bool :=
  match r.result with
  | Outcome.raised _ => true
  | Outcome.returned _ => false

/-- A sample root directory: a complete cache for `abc`, version `10`, with one block file,
and an unrelated directory. -/
def sample_root : FS :=
  { readable := true,
    entries :=
      [("abc_10".toList,
          { files := [("0-5000.cpio".toList, { itemCount := 0, reads := [] })],
            complete := true, lock := none }),
       ("xyz_1".toList, { files := [], complete := false, lock := none })] }

/-! ## Reading decimal digits back -/

/-- The block file `f` gives back the buffers `d` that `write_all_records` stored in it:
`itemCount()` is the number of elements of every buffer, and the read attempt
`i * |d| + j` returns element `i` of buffer `j`. -/
def stored_as (f : BlockFile) (d : buffer_in_array) : Prop :=
  (∀ b ∈ d, b.length = f.itemCount) ∧
  ∀ j, j < d.length → ∀ i, i < f.itemCount →
    d[j]?.bind (fun b => b[i]?) = some (Slot.ofRead (f.read (i * d.length + j)))

instance (f : BlockFile) (d : buffer_in_array) : Decidable (stored_as f d) := by
  unfold stored_as; infer_instance

/-- The buffers of `d`, emptied. -/
def cleared (d : buffer_in_array) : buffer_in_array := d.map (fun _ => [])

/-- A sample object: block size 5000, two blocks, lock descriptor 3. -/
def sample_cache : Cache :=
  { _block_size := 5000, block_count := 2, cache_owner := true, ownership_lock := some 3,
    _cacheDir := "abc_1.0".toList }

/-- A sample empty cache directory whose lock descriptor 3 holds. -/
def sample_world : World :=
  { dir := { files := [], complete := false, lock := some 3 }, log := [] }

/-- A sample primary loader: it adds the item `[block_num, j]` to buffer `j`. -/
def sample_loader (block_num : Nat) (dest : buffer_in_array) : buffer_in_array × Option Err :=
  ((List.range dest.length).zipWith (fun j d => d ++ [Slot.item [block_num, j]]) dest, none)

/-- A sample cpio writer: one item, the last element of each buffer in turn. -/
def sample_writer (d : buffer_in_array) : WriteOutcome :=
  WriteOutcome.written
    { itemCount := 1,
      reads := d.map (fun b => match b.getLast? with
        | some (Slot.item r) => ReadOutcome.record r
        | some (Slot.failed e) => ReadOutcome.throws e
        | none => ReadOutcome.throws []) }

/-- Sample collaborators for which every call succeeds. -/
def sample_ok : Outcomes :=
  { loader_load_block := sample_loader, write_all_records := sample_writer,
    mark := none, release := none }

/-- Sample collaborators whose cpio writer throws. -/
def sample_disk_full : Outcomes :=
  { loader_load_block := sample_loader,
    write_all_records := fun _ => WriteOutcome.throws "disk full".toList,
    mark := none, release := none }

/-! ## The marker and the last block -/

/-- A sample root directory: the cache `abc`, version `1.0`, marked complete although it
holds no block file. -/
def marked_root : FS :=
  { readable := true,
    entries := [("abc_1.0".toList, { files := [], complete := true, lock := none })] }

/-- The object the constructor builds on `marked_root` for one block of size 5000. -/
def non_owner : Cache :=
  { _block_size := 5000, block_count := 1, cache_owner := false, ownership_lock := none,
    _cacheDir := "abc_1.0".toList }

theorem findFrom_ge (pat : Str) : ∀ (s : Str) (i j : Nat), findFrom pat s i = some j → i ≤ j := by
  intro s
  induction s with
  | nil =>
    intro i j h
    simp only [findFrom] at h
    split at h
    · simp only [Option.some.injEq] at h; omega
    · simp at h
  | cons c t ih =>
    intro i j h
    simp only [findFrom] at h
    split at h
    · simp only [Option.some.injEq] at h; omega
    · have := ih (i + 1) j h; omega

theorem findFrom_eq_start (pat s : Str) (i : Nat) :
    findFrom pat s i = some i ↔ pat <+: s := by
  cases s with
  | nil =>
    simp only [findFrom]
    by_cases h : pat.isPrefixOf [] = true
    · rw [if_pos h]
      exact ⟨fun _ => List.isPrefixOf_iff_prefix.mp h, fun _ => rfl⟩
    · rw [if_neg h]
      exact ⟨fun hf => by simp at hf, fun hp => absurd (List.isPrefixOf_iff_prefix.mpr hp) h⟩
  | cons c t =>
    simp only [findFrom]
    by_cases h : pat.isPrefixOf (c :: t) = true
    · rw [if_pos h]
      exact ⟨fun _ => List.isPrefixOf_iff_prefix.mp h, fun _ => rfl⟩
    · rw [if_neg h]
      constructor
      · intro hf
        have := findFrom_ge pat t (i + 1) i hf
        omega
      · intro hp; exact absurd (List.isPrefixOf_iff_prefix.mpr hp) h

theorem findFrom_eq_none (pat : Str) : ∀ (s : Str) (i : Nat),
    findFrom pat s i = none ↔ ¬ pat <:+: s := by
  intro s
  induction s with
  | nil =>
    intro i
    simp only [findFrom]
    by_cases h : pat.isPrefixOf [] = true
    · rw [if_pos h]
      exact ⟨fun hf => by simp at hf,
        fun hn => absurd (List.isPrefixOf_iff_prefix.mp h).isInfix hn⟩
    · rw [if_neg h]
      refine ⟨fun _ hin => ?_, fun _ => rfl⟩
      have : pat = [] := List.eq_nil_of_infix_nil hin
      subst this
      exact h (by simp)
  | cons c t ih =>
    intro i
    simp only [findFrom]
    by_cases h : pat.isPrefixOf (c :: t) = true
    · rw [if_pos h]
      exact ⟨fun hf => by simp at hf,
        fun hn => absurd (List.isPrefixOf_iff_prefix.mp h).isInfix hn⟩
    · rw [if_neg h, ih (i + 1), List.infix_cons_iff]
      constructor
      · intro hn hor
        rcases hor with hp | hi
        · exact h (List.isPrefixOf_iff_prefix.mpr hp)
        · exact hn hi
      · intro hn hi
        exact hn (Or.inr hi)

theorem find_eq_zero_iff (s pat : Str) : find s pat = some 0 ↔ pat <+: s :=
  findFrom_eq_start pat s 0

theorem find_eq_none_iff (s pat : Str) : find s pat = none ↔ ¬ pat <:+: s :=
  findFrom_eq_none pat s 0

theorem holds_invalid_iff (filename cache_id version : Str) :
    filename_holds_invalid_cache filename cache_id version = true
      ↔ cache_id <+: filename ∧ ¬ version <:+: filename := by
  unfold filename_holds_invalid_cache
  by_cases h1 : find filename cache_id = some 0
  · have hp := (find_eq_zero_iff filename cache_id).mp h1
    by_cases h2 : find filename version = none
    · have hi := (find_eq_none_iff filename version).mp h2
      simp [h1, h2, hp, hi]
    · have hi : ¬ ¬ version <:+: filename := fun hn =>
        h2 ((find_eq_none_iff filename version).mpr hn)
      simp [h1, h2, hp, hi]
  · have hp : ¬ cache_id <+: filename := fun hp =>
      h1 ((find_eq_zero_iff filename cache_id).mpr hp)
    simp [h1, hp]

theorem own_name_not_invalid (cache_id version : Str) :
    filename_holds_invalid_cache (cache_id ++ "_".toList ++ version) cache_id version = false := by
  rw [Bool.eq_false_iff]
  intro h
  have h2 := ((holds_invalid_iff _ _ _).mp h).2
  exact h2 ⟨cache_id ++ "_".toList, [], by simp⟩

/-! ## Lemmas on directory entries -/

theorem lookup_cons_eq {β : Type} (k : Str) (v : β) (es : List (Str × β)) :
    List.lookup k ((k, v) :: es) = some v := by
  simp [List.lookup]

theorem lookup_cons_ne {β : Type} (a k : Str) (v : β) (es : List (Str × β)) (h : a ≠ k) :
    List.lookup a ((k, v) :: es) = List.lookup a es := by
  have : (a == k) = false := by simpa using h
  simp [List.lookup, this]

theorem lookup_remove_directory (own name : Str) (h : name ≠ own) :
    ∀ es : List (Str × CacheDir), (remove_directory name es).lookup own = es.lookup own := by
  intro es
  induction es with
  | nil => rfl
  | cons e es ih =>
    obtain ⟨k, v⟩ := e
    unfold remove_directory at ih ⊢
    by_cases hk : k = name
    · subst hk
      have hne : own ≠ k := fun x => h x.symm
      simp only [List.filter, ne_eq, not_true_eq_false, decide_False]
      rw [ih, lookup_cons_ne own k v es hne]
    · simp only [List.filter, ne_eq, hk, not_false_eq_true, decide_True]
      by_cases ho : own = k
      · subst ho
        rw [lookup_cons_eq, lookup_cons_eq]
      · rw [lookup_cons_ne own k v _ ho, lookup_cons_ne own k v _ ho, ih]

theorem invalidate_loop_keeps (cache_id version own : Str)
    (hown : filename_holds_invalid_cache own cache_id version = false) :
    ∀ (names : List Str) (s : List (Str × CacheDir) × List Event),
      (invalidate_loop cache_id version names s).1.lookup own = s.1.lookup own ∧
      (Event.remove_directory own ∈ (invalidate_loop cache_id version names s).2 →
        Event.remove_directory own ∈ s.2) := by
  intro names
  induction names with
  | nil => intro s; exact ⟨rfl, fun h => h⟩
  | cons name rest ih =>
    intro s
    unfold invalidate_loop
    by_cases hn : filename_holds_invalid_cache name cache_id version = true
    · rw [if_pos hn]
      have hne : name ≠ own := by
        intro he; subst he; rw [hown] at hn; exact Bool.false_ne_true hn
      obtain ⟨h1, h2⟩ := ih (remove_directory name s.1, s.2 ++ [Event.remove_directory name])
      refine ⟨?_, ?_⟩
      · rw [h1]; exact lookup_remove_directory own name hne s.1
      · intro hm
        have := h2 hm
        simp only [List.mem_append, List.mem_singleton, Event.remove_directory.injEq] at this
        rcases this with h | h
        · exact h
        · exact absurd h.symm hne
    · rw [if_neg hn]
      exact ih s

/-! ## Claims on the invalidation predicate -/

/-- C1: `filename_holds_invalid_cache(filename, cache_id, version)` returns true exactly
when `cache_id` is a prefix of `filename` and `version` occurs nowhere in `filename`; so a
file name that does not start with `cache_id` is never reported invalid. -/
theorem filename_holds_invalid_cache_iff (filename cache_id version : Str) :
    (filename_holds_invalid_cache filename cache_id version = true
        ↔ cache_id <+: filename ∧ ¬ version <:+: filename) ∧
      (cache_id <+: filename ∨
        ∀ v : Str, filename_holds_invalid_cache filename cache_id v = false) := by
  refine ⟨holds_invalid_iff filename cache_id version, ?_⟩
  by_cases hp : cache_id <+: filename
  · exact Or.inl hp
  · refine Or.inr (fun v => ?_)
    rw [Bool.eq_false_iff]
    intro h
    exact hp ((holds_invalid_iff filename cache_id v).mp h).1

theorem read_or_add_exception_eq (f : BlockFile) (k : Nat) (d : buffer_in) :
    read_or_add_exception f k d = d ++ [Slot.ofRead (f.read k)] := by
  unfold read_or_add_exception
  cases f.read k <;> rfl

theorem read_item_spec (f : BlockFile) : ∀ (dest : buffer_in_array) (k : Nat),
    (read_item f k dest).2 = k + dest.length ∧
    (read_item f k dest).1.length = dest.length ∧
    ∀ j, (read_item f k dest).1[j]?
      = dest[j]?.map (fun d => d ++ [Slot.ofRead (f.read (k + j))]) := by
  intro dest
  induction dest with
  | nil => intro k; simp [read_item]
  | cons d ds ih =>
    intro k
    obtain ⟨h1, h2, h3⟩ := ih (k + 1)
    refine ⟨?_, ?_, ?_⟩
    · simp only [read_item, h1, List.length_cons]; omega
    · simp only [read_item, List.length_cons, h2]
    · intro j
      cases j with
      | zero => simp [read_item, read_or_add_exception_eq]
      | succ j =>
        simp only [read_item, List.getElem?_cons_succ, h3]
        have : k + 1 + j = k + (j + 1) := by omega
        rw [this]

theorem read_items_spec (f : BlockFile) : ∀ (n k : Nat) (dest : buffer_in_array),
    (read_items f n k dest).2 = k + n * dest.length ∧
    (read_items f n k dest).1.length = dest.length ∧
    ∀ j, (read_items f n k dest).1[j]?
      = dest[j]?.map (fun d => d ++ (List.range n).map
          (fun i => Slot.ofRead (f.read (k + i * dest.length + j)))) := by
  intro n
  induction n with
  | zero => intro k dest; simp [read_items]
  | succ n ih =>
    intro k dest
    obtain ⟨r1, r2, r3⟩ := read_item_spec f dest k
    obtain ⟨h1, h2, h3⟩ := ih (read_item f k dest).2 (read_item f k dest).1
    rw [r1, r2] at h1 h3
    rw [r1, r2] at h2
    have hunf : read_items f (n + 1) k dest
        = read_items f n (k + dest.length) (read_item f k dest).1 := by
      simp only [read_items, r1]
    rw [hunf]
    refine ⟨?_, h2, ?_⟩
    · rw [h1, Nat.succ_mul]; omega
    · intro j
      rw [h3, r3]
      cases hj : dest[j]? with
      | none => simp
      | some d =>
        simp only [Option.map_some', List.append_assoc, Option.some.injEq,
          List.append_cancel_left_eq]
        rw [List.range_succ_eq_map, List.map_cons, List.map_map]
        simp only [List.singleton_append, Nat.zero_mul, Nat.add_zero, List.cons.injEq, true_and]
        apply List.map_congr_left
        intro i _
        simp only [Function.comp, Nat.succ_eq_add_one]
        have : k + dest.length + i * dest.length + j = k + (i + 1) * dest.length + j := by
          rw [Nat.add_mul]; omega
        rw [this]

/-! ## Claims on `load_block_from_cache` and `load_block` -/

/-- C10: `load_block_from_cache(dest, block_num)` returns false, with `dest` untouched and
no read attempted, exactly when the block file cannot be opened; when the file opens it
returns true whatever the reads do: it makes `itemCount() * |dest|` read attempts, the
attempt `i * |dest| + j` goes to buffer `j` of `dest` as its `i`-th new element, and a read
that throws leaves its exception in that place without skipping a later attempt. -/
theorem load_block_from_cache_spec (c : Cache) (w : World) (dest : buffer_in_array)
    (block_num : Nat) :
    ((load_block_from_cache c w dest block_num).hit = false
        ↔ w.dir.files.lookup (block_filename c block_num) = none) ∧
    match w.dir.files.lookup (block_filename c block_num) with
    | none => load_block_from_cache c w dest block_num
        = { hit := false, dest := dest, attempts := 0 }
    | some f =>
      (load_block_from_cache c w dest block_num).hit = true ∧
      (load_block_from_cache c w dest block_num).attempts = f.itemCount * dest.length ∧
      (load_block_from_cache c w dest block_num).dest.length = dest.length ∧
      ∀ j, (load_block_from_cache c w dest block_num).dest[j]?
        = dest[j]?.map (fun d => d ++ (List.range f.itemCount).map
            (fun i => Slot.ofRead (f.read (i * dest.length + j)))) := by
  unfold load_block_from_cache
  cases hl : w.dir.files.lookup (block_filename c block_num) with
  | none => simp
  | some f =>
    obtain ⟨h1, h2, h3⟩ := read_items_spec f f.itemCount 0 dest
    simp only [reduceCtorEq, iff_false, Bool.true_eq_false, not_false_eq_true, true_and]
    refine ⟨by simpa using h1, h2, ?_⟩
    intro j
    simpa using h3 j

theorem load_block_hit (c : Cache) (o : Outcomes) (w : World) (dest : buffer_in_array)
    (block_num : Nat) (f : BlockFile)
    (h : w.dir.files.lookup (block_filename c block_num) = some f) :
    load_block c o w dest block_num
      = { world := w, dest := (read_items f f.itemCount 0 dest).1, raised := none } := by
  simp [load_block, load_block_from_cache, h]

theorem load_block_miss (c : Cache) (o : Outcomes) (w : World) (dest : buffer_in_array)
    (block_num : Nat) (h : w.dir.files.lookup (block_filename c block_num) = none) :
    load_block c o w dest block_num
      = match o.loader_load_block block_num dest with
        | (d1, some e) =>
          { world := { w with log := w.log ++ [Event.loader_load_block block_num] },
            dest := d1, raised := some e }
        | (d1, none) =>
          { world := try_catch c o
              { w with log := w.log ++ [Event.loader_load_block block_num] } d1 block_num,
            dest := d1, raised := none } := by
  simp [load_block, load_block_from_cache, h]

theorem load_block_miss_ok (c : Cache) (o : Outcomes) (w : World) (dest : buffer_in_array)
    (block_num : Nat) (h : w.dir.files.lookup (block_filename c block_num) = none)
    (hp : (o.loader_load_block block_num dest).2 = none) :
    load_block c o w dest block_num
      = { world := try_catch c o
            { w with log := w.log ++ [Event.loader_load_block block_num] }
            (o.loader_load_block block_num dest).1 block_num,
          dest := (o.loader_load_block block_num dest).1, raised := none } := by
  rw [load_block_miss c o w dest block_num h]
  rcases hl : o.loader_load_block block_num dest with ⟨d1, e⟩
  rw [hl] at hp
  simp only at hp
  subst hp
  rfl

/-- C4: on a cache miss for which the primary loader's `load_block` succeeds,
`load_block(dest, block_num)` returns normally with `dest` as the primary loader left it,
whatever the cpio writer, `mark_cache_complete` and `release_lock` do: an exception of
theirs does not reach the caller and does not change `dest`. -/
theorem load_block_miss_returns_primary (c : Cache) (o : Outcomes) (w : World)
    (dest : buffer_in_array) (block_num : Nat)
    (hmiss : w.dir.files.lookup (block_filename c block_num) = none)
    (hprimary : (o.loader_load_block block_num dest).2 = none) :
    (load_block c o w dest block_num).raised = none ∧
    (load_block c o w dest block_num).dest = (o.loader_load_block block_num dest).1 := by
  rw [load_block_miss_ok c o w dest block_num hmiss hprimary]
  exact ⟨rfl, rfl⟩

/-- C4 at a sample input: the last block of an empty cache, with a writer that throws. -/
theorem load_block_miss_returns_primary_witness :
    sample_world.dir.files.lookup (block_filename sample_cache 1) = none ∧
    (sample_disk_full.loader_load_block 1 [[], []]).2 = none ∧
    (load_block sample_cache sample_disk_full sample_world [[], []] 1).raised = none ∧
    (load_block sample_cache sample_disk_full sample_world [[], []] 1).dest
      = [[Slot.item [1, 0]], [Slot.item [1, 1]]] :=
  ⟨by decide, by decide,
    load_block_miss_returns_primary sample_cache sample_disk_full sample_world [[], []] 1
      (by decide) (by decide)⟩

/-! ## After a successful write -/

theorem release_ownership_files (c : Cache) (o : Outcomes) (w : World) :
    (release_ownership c o w).1.dir.files = w.dir.files := by
  unfold release_ownership release_lock
  cases o.release with
  | some e => rfl
  | none =>
    simp only
    split <;> rfl

theorem mark_cache_complete_files (o : Outcomes) (w : World) :
    (mark_cache_complete o w).1.dir.files = w.dir.files := by
  unfold mark_cache_complete
  cases o.mark <;> rfl

theorem try_body_files_written (c : Cache) (o : Outcomes) (w : World) (d : buffer_in_array)
    (block_num : Nat) (f : BlockFile) (hw : o.write_all_records d = WriteOutcome.written f) :
    (try_body c o w d block_num).1.dir.files = (block_filename c block_num, f) :: w.dir.files := by
  unfold try_body write_block_to_cache
  rw [hw]
  simp only
  by_cases hl : block_num = last_block c
  · rw [if_pos hl]
    rcases hm : mark_cache_complete o
      { dir := { w.dir with files := (block_filename c block_num, f) :: w.dir.files },
        log := w.log ++ [Event.write_block block_num] } with ⟨w2, e⟩
    have hf := mark_cache_complete_files o
      { dir := { w.dir with files := (block_filename c block_num, f) :: w.dir.files },
        log := w.log ++ [Event.write_block block_num] }
    rw [hm] at hf
    cases e with
    | some e => exact hf
    | none =>
      simp only
      rw [release_ownership_files]
      exact hf
  · rw [if_neg hl]

theorem try_catch_files_written (c : Cache) (o : Outcomes) (w : World) (d : buffer_in_array)
    (block_num : Nat) (f : BlockFile) (hw : o.write_all_records d = WriteOutcome.written f) :
    (try_catch c o w d block_num).dir.files = (block_filename c block_num, f) :: w.dir.files := by
  have h := try_body_files_written c o w d block_num f hw
  unfold try_catch
  rcases hb : try_body c o w d block_num with ⟨w1, e⟩
  rw [hb] at h
  cases e <;> exact h

theorem stored_row (f : BlockFile) (d : buffer_in_array) (h : stored_as f d) (j : Nat)
    (b : buffer_in) (hj : d[j]? = some b) :
    (List.range f.itemCount).map (fun i => Slot.ofRead (f.read (i * d.length + j))) = b := by
  obtain ⟨hlen, hrec⟩ := h
  have hjlt : j < d.length := by
    rcases List.getElem?_eq_some_iff.mp hj with ⟨hlt, -⟩
    exact hlt
  have hbl := hlen b (List.getElem?_mem hj)
  apply List.ext_getElem?
  intro i
  by_cases hi : i < f.itemCount
  · have := hrec j hjlt i hi
    rw [hj] at this
    simp only [Option.some_bind] at this
    rw [this, List.getElem?_map, List.getElem?_range hi]
    rfl
  · have h1 : b[i]? = none := List.getElem?_eq_none (by omega)
    rw [h1]
    apply List.getElem?_eq_none
    simp only [List.length_map, List.length_range]
    omega

theorem read_appends_stored (f : BlockFile) (d dest : buffer_in_array) (h : stored_as f d)
    (hl : dest.length = d.length) :
    (read_items f f.itemCount 0 dest).1 = List.zipWith (fun a b => a ++ b) dest d := by
  obtain ⟨-, -, h3⟩ := read_items_spec f f.itemCount 0 dest
  apply List.ext_getElem?
  intro j
  rw [h3 j, List.getElem?_zipWith, hl]
  cases hj : d[j]? with
  | none =>
    have hle : d.length ≤ j := List.getElem?_eq_none_iff.mp hj
    have : dest[j]? = none := List.getElem?_eq_none (by rw [hl]; exact hle)
    rw [this]; rfl
  | some b =>
    have hjlt : j < dest.length := by
      rcases List.getElem?_eq_some_iff.mp hj with ⟨hlt, -⟩
      rw [hl]; exact hlt
    have hrow := stored_row f d h j b hj
    rcases hd : dest[j]? with _ | a
    · have := List.getElem?_eq_none_iff.mp hd
      omega
    · simp only [Option.map_some', Nat.zero_add, hrow]

theorem zipWith_cleared (d : buffer_in_array) :
    List.zipWith (fun a b => a ++ b) (cleared d) d = d := by
  unfold cleared
  induction d with
  | nil => rfl
  | cons b bs ih => simp only [List.map_cons, List.zipWith_cons_cons, List.nil_append, ih]

theorem read_back_stored (f : BlockFile) (d : buffer_in_array) (h : stored_as f d) :
    (read_items f f.itemCount 0 (cleared d)).1 = d := by
  rw [read_appends_stored f d (cleared d) h (by simp [cleared]), zipWith_cleared]

/-- C5: once a `load_block` miss has written the block file, a later
`load_block(dest, block_num)` on an unchanged cache directory is served from that file: it
returns normally and leaves the world as it was (no call of the primary loader, no file
written), whatever the collaborators would do, and `dest` holds what the reader takes
from the file; when the file gives back the buffers that were stored, every buffer of `dest` gets
the elements the first call left in it, so a `dest` that comes in emptied ends as the first
call left it. -/
theorem load_block_hit_after_write (c : Cache) (o : Outcomes) (w : World)
    (dest : buffer_in_array) (block_num : Nat) (f : BlockFile)
    (hmiss : w.dir.files.lookup (block_filename c block_num) = none)
    (hprimary : (o.loader_load_block block_num dest).2 = none)
    (hwrite : o.write_all_records (o.loader_load_block block_num dest).1
      = WriteOutcome.written f)
    (o2 : Outcomes) (w2 : World) (dest2 : buffer_in_array)
    (hdir : w2.dir = (load_block c o w dest block_num).world.dir) :
    (load_block c o2 w2 dest2 block_num).raised = none ∧
    (load_block c o2 w2 dest2 block_num).world = w2 ∧
    (load_block c o2 w2 dest2 block_num).dest = (read_items f f.itemCount 0 dest2).1 ∧
    (stored_as f (load_block c o w dest block_num).dest →
      (dest2.length = (load_block c o w dest block_num).dest.length →
        (load_block c o2 w2 dest2 block_num).dest
          = List.zipWith (fun a b => a ++ b) dest2 (load_block c o w dest block_num).dest) ∧
      (dest2 = cleared (load_block c o w dest block_num).dest →
        (load_block c o2 w2 dest2 block_num).dest
          = (load_block c o w dest block_num).dest)) := by
  have h1 := load_block_miss_ok c o w dest block_num hmiss hprimary
  have hfiles : w2.dir.files.lookup (block_filename c block_num) = some f := by
    rw [hdir, h1]
    simp only
    rw [try_catch_files_written c o _ _ block_num f hwrite]
    exact lookup_cons_eq _ _ _
  have h2 := load_block_hit c o2 w2 dest2 block_num f hfiles
  rw [h2]
  refine ⟨rfl, rfl, rfl, ?_⟩
  intro hs
  refine ⟨fun hl => read_appends_stored f _ dest2 hs hl, fun hd => ?_⟩
  simp only
  rw [hd]
  exact read_back_stored f _ hs

/-- C5 at a sample input: the last block of an empty cache is loaded and stored, then
asked for again with emptied buffers and collaborators whose writer would throw. -/
theorem load_block_hit_after_write_witness :
    (load_block sample_cache sample_disk_full
        (load_block sample_cache sample_ok sample_world [[], []] 1).world [[], []] 1).raised
      = none ∧
    (load_block sample_cache sample_disk_full
        (load_block sample_cache sample_ok sample_world [[], []] 1).world [[], []] 1).world
      = (load_block sample_cache sample_ok sample_world [[], []] 1).world ∧
    (load_block sample_cache sample_disk_full
        (load_block sample_cache sample_ok sample_world [[], []] 1).world [[], []] 1).dest
      = [[Slot.item [1, 0]], [Slot.item [1, 1]]] :=
  have h := load_block_hit_after_write sample_cache sample_ok sample_world [[], []] 1
    { itemCount := 1, reads := [ReadOutcome.record [1, 0], ReadOutcome.record [1, 1]] }
    (by decide) (by decide) (by decide) sample_disk_full
    (load_block sample_cache sample_ok sample_world [[], []] 1).world [[], []] rfl
  ⟨h.1, h.2.1, (h.2.2.2 (by decide)).2 (by decide)⟩

/-! ## The constructor -/

theorem invalidate_loop_log (cache_id version : Str) :
    ∀ (names : List Str) (s : List (Str × CacheDir) × List Event),
      (invalidate_loop cache_id version names s).2
        = s.2 ++ (names.filter (fun n => filename_holds_invalid_cache n cache_id version)).map
            Event.remove_directory := by
  intro names
  induction names with
  | nil => intro s; simp [invalidate_loop]
  | cons name rest ih =>
    intro s
    unfold invalidate_loop
    by_cases hn : filename_holds_invalid_cache name cache_id version = true
    · rw [if_pos hn, ih]
      simp [List.filter, hn]
    · rw [if_neg hn, ih]
      simp [List.filter, hn]

theorem lookup_removed (name : Str) :
    ∀ es : List (Str × CacheDir), (remove_directory name es).lookup name = none := by
  intro es
  induction es with
  | nil => rfl
  | cons e es ih =>
    obtain ⟨k, v⟩ := e
    unfold remove_directory at ih ⊢
    by_cases hk : k = name
    · subst hk
      simp only [List.filter, ne_eq, not_true_eq_false, decide_False]
      exact ih
    · simp only [List.filter, ne_eq, hk, not_false_eq_true, decide_True]
      rw [lookup_cons_ne name k v _ (fun h => hk h.symm)]
      exact ih

theorem lookup_remove_none (own name : Str) (es : List (Str × CacheDir))
    (h : es.lookup own = none) : (remove_directory name es).lookup own = none := by
  by_cases hn : name = own
  · subst hn; exact lookup_removed name es
  · rw [lookup_remove_directory own name hn es]; exact h

theorem invalidate_loop_none (cache_id version old : Str) :
    ∀ (names : List Str) (s : List (Str × CacheDir) × List Event),
      s.1.lookup old = none → (invalidate_loop cache_id version names s).1.lookup old = none := by
  intro names
  induction names with
  | nil => intro s h; exact h
  | cons name rest ih =>
    intro s h
    unfold invalidate_loop
    by_cases hn : filename_holds_invalid_cache name cache_id version = true
    · rw [if_pos hn]
      exact ih _ (lookup_remove_none old name s.1 h)
    · rw [if_neg hn]
      exact ih s h

theorem invalidate_loop_removes (cache_id version old : Str)
    (hold : filename_holds_invalid_cache old cache_id version = true) :
    ∀ (names : List Str) (s : List (Str × CacheDir) × List Event),
      old ∈ names → (invalidate_loop cache_id version names s).1.lookup old = none := by
  intro names
  induction names with
  | nil => intro s h; cases h
  | cons name rest ih =>
    intro s h
    unfold invalidate_loop
    by_cases hn : filename_holds_invalid_cache name cache_id version = true
    · rw [if_pos hn]
      by_cases he : name = old
      · subst he
        exact invalidate_loop_none cache_id version name rest _ (lookup_removed name s.1)
      · rcases List.mem_cons.mp h with h | h
        · exact absurd h.symm he
        · exact ih _ h
    · rw [if_neg hn]
      rcases List.mem_cons.mp h with h | h
      · subst h; exact absurd hold hn
      · exact ih s h

theorem lookup_append_none {β : Type} (a : Str) : ∀ (es fs : List (Str × β)),
    es.lookup a = none → (es ++ fs).lookup a = fs.lookup a := by
  intro es
  induction es with
  | nil => intro fs _; rfl
  | cons e es ih =>
    intro fs h
    obtain ⟨k, v⟩ := e
    by_cases hk : a = k
    · subst hk; rw [lookup_cons_eq] at h; cases h
    · rw [lookup_cons_ne a k v es hk] at h
      rw [List.cons_append, lookup_cons_ne a k v _ hk]
      exact ih fs h

theorem lookup_append_some {β : Type} (a : Str) (v : β) : ∀ (es fs : List (Str × β)),
    es.lookup a = some v → (es ++ fs).lookup a = some v := by
  intro es
  induction es with
  | nil => intro fs h; cases h
  | cons e es ih =>
    intro fs h
    obtain ⟨k, x⟩ := e
    by_cases hk : a = k
    · subst hk; rw [lookup_cons_eq] at h; rw [List.cons_append, lookup_cons_eq]; exact h
    · rw [lookup_cons_ne a k x es hk] at h
      rw [List.cons_append, lookup_cons_ne a k x _ hk]
      exact ih fs h

theorem lookup_make_directory_other (name other : Str) (es : List (Str × CacheDir))
    (h : other ≠ name) : (make_directory name es).2.lookup other = es.lookup other := by
  unfold make_directory
  cases hl : es.lookup name with
  | some d => rfl
  | none =>
    simp only
    cases ho : es.lookup other with
    | none =>
      rw [lookup_append_none other es _ ho, lookup_cons_ne other name _ _ h]
      rfl
    | some d => exact lookup_append_some other d es _ ho

theorem lookup_make_directory_self (name : Str) (es : List (Str × CacheDir)) :
    (make_directory name es).2.lookup name
      = some ((es.lookup name).getD { files := [], complete := false, lock := none }) := by
  unfold make_directory
  cases hl : es.lookup name with
  | some d => simp [hl]
  | none =>
    simp only [Option.getD_none]
    rw [lookup_append_none name es _ hl, lookup_cons_eq]

theorem lookup_set_dir_other (name other : Str) (d : CacheDir) (h : other ≠ name) :
    ∀ es : List (Str × CacheDir), (set_dir name d es).lookup other = es.lookup other := by
  intro es
  induction es with
  | nil => rfl
  | cons e es ih =>
    obtain ⟨k, v⟩ := e
    unfold set_dir
    by_cases hk : k = name
    · subst hk
      simp only [if_true]
      rw [lookup_cons_ne other k d es h, lookup_cons_ne other k v es h]
    · simp only [hk, if_false]
      by_cases ho : other = k
      · subst ho; rw [lookup_cons_eq, lookup_cons_eq]
      · rw [lookup_cons_ne other k v _ ho, lookup_cons_ne other k v _ ho, ih]

theorem lookup_entries_at_check (fs : FS) (cache_id version : Str) :
    (entries_at_check fs cache_id version).lookup (cache_id ++ "_".toList ++ version)
      = some ((fs.entries.lookup (cache_id ++ "_".toList ++ version)).getD
          { files := [], complete := false, lock := none }) := by
  unfold entries_at_check
  rw [lookup_make_directory_self]
  rw [(invalidate_loop_keeps cache_id version _ (own_name_not_invalid cache_id version)
    (fs.entries.map Prod.fst) (fs.entries, [])).1]

theorem check_if_complete_eq (c : Cache) (fs : FS) (cache_id version : Str)
    (hc : c._cacheDir = cache_id ++ "_".toList ++ version) :
    check_if_complete c (entries_at_check fs cache_id version)
      = marker_present fs cache_id version := by
  unfold check_if_complete marker_present
  rw [hc]

theorem take_ownership_eq (c : Cache) (fs : FS) (cache_id version : Str) (fd : Int)
    (hc : c._cacheDir = cache_id ++ "_".toList ++ version) :
    (take_ownership c fd (entries_at_check fs cache_id version)).1.ownership_lock
        = some (lock_attempt fs cache_id version fd) ∧
    (take_ownership c fd (entries_at_check fs cache_id version)).2.2
        = decide (lock_attempt fs cache_id version fd ≠ -1) ∧
    ∀ other, other ≠ cache_id ++ "_".toList ++ version →
      (take_ownership c fd (entries_at_check fs cache_id version)).2.1.lookup other
        = (entries_at_check fs cache_id version).lookup other := by
  unfold take_ownership lock_attempt
  rw [hc, lookup_entries_at_check]
  exact ⟨rfl, rfl, fun other ho => lookup_set_dir_other _ other _ ho _⟩

/-- The three ways a run of the constructor ends. -/
theorem construct_cases (fs : FS) (root cache_id version : Str) (bs bc : Nat) (fd : Int) :
    (fs.readable = false ∧
      (construct fs root cache_id version bs bc fd).raises = true ∧
      (construct fs root cache_id version bs bc fd).log = []) ∨
    (fs.readable = true ∧ marker_present fs cache_id version = true ∧
      (construct fs root cache_id version bs bc fd).raises = false ∧
      (construct fs root cache_id version bs bc fd).log
        = (invalidate_loop cache_id version (fs.entries.map Prod.fst) (fs.entries, [])).2
          ++ [Event.make_directory (cache_id ++ "_".toList ++ version)] ∧
      (construct fs root cache_id version bs bc fd).entries
        = entries_at_check fs cache_id version) ∨
    (fs.readable = true ∧ marker_present fs cache_id version = false ∧
      (construct fs root cache_id version bs bc fd).raises
        = decide (lock_attempt fs cache_id version fd = -1) ∧
      (construct fs root cache_id version bs bc fd).log
        = (invalidate_loop cache_id version (fs.entries.map Prod.fst) (fs.entries, [])).2
          ++ [Event.make_directory (cache_id ++ "_".toList ++ version)]
          ++ [Event.try_get_lock (lock_attempt fs cache_id version fd)] ∧
      ∀ other, other ≠ cache_id ++ "_".toList ++ version →
        (construct fs root cache_id version bs bc fd).entries.lookup other
          = (entries_at_check fs cache_id version).lookup other) := by
  by_cases hr : fs.readable = true
  · have hinv : invalidate_old_cache fs root cache_id version = Outcome.returned
        (invalidate_loop cache_id version (fs.entries.map Prod.fst) (fs.entries, [])) := by
      unfold invalidate_old_cache; rw [if_pos hr]
    by_cases hm : marker_present fs cache_id version = true
    · right; left
      refine ⟨hr, hm, ?_⟩
      have hchk := check_if_complete_eq
        { _block_size := bs, block_count := bc,
          cache_owner := (make_directory (cache_id ++ "_".toList ++ version)
            (invalidate_loop cache_id version (fs.entries.map Prod.fst) (fs.entries, [])).1).1,
          ownership_lock := none, _cacheDir := cache_id ++ "_".toList ++ version }
        fs cache_id version rfl
      rw [hm] at hchk
      unfold entries_at_check at hchk
      unfold construct
      rw [hinv]
      simp only [hchk, Bool.true_eq_false, if_false, Construction.raises, entries_at_check,
        and_self]
    · right; right
      have hm2 : marker_present fs cache_id version = false := by
        simpa using hm
      refine ⟨hr, hm2, ?_⟩
      have hchk := check_if_complete_eq
        { _block_size := bs, block_count := bc,
          cache_owner := (make_directory (cache_id ++ "_".toList ++ version)
            (invalidate_loop cache_id version (fs.entries.map Prod.fst) (fs.entries, [])).1).1,
          ownership_lock := none, _cacheDir := cache_id ++ "_".toList ++ version }
        fs cache_id version rfl
      have htake := take_ownership_eq
        { _block_size := bs, block_count := bc,
          cache_owner := (make_directory (cache_id ++ "_".toList ++ version)
            (invalidate_loop cache_id version (fs.entries.map Prod.fst) (fs.entries, [])).1).1,
          ownership_lock := none, _cacheDir := cache_id ++ "_".toList ++ version }
        fs cache_id version fd rfl
      rw [hm2] at hchk
      unfold entries_at_check at hchk htake
      unfold construct
      rw [hinv]
      simp only [hchk, if_true, htake.1, htake.2.1, Option.getD_some]
      by_cases hl : lock_attempt fs cache_id version fd = -1
      · simp only [hl, ne_eq, not_true_eq_false, decide_False, if_true, Construction.raises,
          decide_True, true_and]
        exact htake.2.2
      · simp only [hl, ne_eq, not_false_eq_true, decide_True, Bool.true_eq_false, if_false,
          Construction.raises, decide_False, true_and]
        exact htake.2.2
  · left
    have hr2 : fs.readable = false := by simpa using hr
    have hinv : invalidate_old_cache fs root cache_id version
        = Outcome.raised ("error enumerating old cache in ".toList ++ root) := by
      unfold invalidate_old_cache; rw [if_neg hr]
    refine ⟨hr2, ?_⟩
    unfold construct
    rw [hinv]
    exact ⟨rfl, rfl⟩

theorem invalidate_log_no_lock (cache_id version : Str) (names : List Str)
    (es : List (Str × CacheDir)) :
    ∀ e ∈ (invalidate_loop cache_id version names (es, [])).2,
      ∃ n, e = Event.remove_directory n := by
  intro e he
  rw [invalidate_loop_log] at he
  simp only [List.nil_append, List.mem_map] at he
  obtain ⟨n, -, hn⟩ := he
  exact ⟨n, hn.symm⟩

/-- C2, refuted as stated: with the directory `abc_10` in the root, the constructor for
`("abc", "1")` makes no `remove_directory` call, creates `abc_1` and leaves `abc_10` with
its block file in place, because `1` occurs in `abc_10`. -/
theorem stale_directory_kept :
    "10".toList ≠ "1".toList ∧
    sample_root.readable = true ∧
    "abc_10".toList ∈ sample_root.entries.map Prod.fst ∧
    (construct sample_root "/cache".toList "abc".toList "1".toList 5000 1 3).raises = false ∧
    (construct sample_root "/cache".toList "abc".toList "1".toList 5000 1 3).log
      = [Event.make_directory "abc_1".toList, Event.try_get_lock 3] ∧
    (construct sample_root "/cache".toList "abc".toList "1".toList 5000 1 3).entries.lookup
        "abc_10".toList
      = sample_root.entries.lookup "abc_10".toList := by
  decide

/-- C2, amended: when the root can be enumerated and holds an entry `X + "_" + v_old` in
which `v_new` does not occur, the constructor for `(root, X, v_new)` calls
`remove_directory` on that entry before it calls `make_directory` on `X + "_" + v_new`,
and the entry is gone afterwards. -/
theorem stale_directory_removed (fs : FS) (root X v_old v_new : Str) (bs bc : Nat) (fd : Int)
    (hread : fs.readable = true)
    (hdir : X ++ "_".toList ++ v_old ∈ fs.entries.map Prod.fst)
    (hsub : ¬ v_new <:+: X ++ "_".toList ++ v_old) :
    (∃ removals rest,
      (construct fs root X v_new bs bc fd).log
        = removals ++ Event.make_directory (X ++ "_".toList ++ v_new) :: rest ∧
      Event.remove_directory (X ++ "_".toList ++ v_old) ∈ removals ∧
      Event.make_directory (X ++ "_".toList ++ v_new) ∉ removals) ∧
    (construct fs root X v_new bs bc fd).entries.lookup (X ++ "_".toList ++ v_old) = none := by
  have hinvalid : filename_holds_invalid_cache (X ++ "_".toList ++ v_old) X v_new = true :=
    (holds_invalid_iff _ _ _).mpr ⟨⟨"_".toList ++ v_old, by simp⟩, hsub⟩
  have hne : X ++ "_".toList ++ v_old ≠ X ++ "_".toList ++ v_new := by
    intro he
    rw [he] at hinvalid
    rw [own_name_not_invalid] at hinvalid
    cases hinvalid
  have hrem : Event.remove_directory (X ++ "_".toList ++ v_old)
      ∈ (invalidate_loop X v_new (fs.entries.map Prod.fst) (fs.entries, [])).2 := by
    rw [invalidate_loop_log]
    exact List.mem_append_right _
      (List.mem_map.mpr ⟨_, List.mem_filter.mpr ⟨hdir, by simpa using hinvalid⟩, rfl⟩)
  have hnomk : Event.make_directory (X ++ "_".toList ++ v_new)
      ∉ (invalidate_loop X v_new (fs.entries.map Prod.fst) (fs.entries, [])).2 := by
    intro hm
    obtain ⟨n, hn⟩ := invalidate_log_no_lock X v_new _ _ _ hm
    cases hn
  have hgone : (entries_at_check fs X v_new).lookup (X ++ "_".toList ++ v_old) = none := by
    unfold entries_at_check
    rw [lookup_make_directory_other _ _ _ hne]
    exact invalidate_loop_removes X v_new _ hinvalid _ _ hdir
  rcases construct_cases fs root X v_new bs bc fd with
    ⟨h1, -⟩ | ⟨-, -, -, h4, h5⟩ | ⟨-, -, -, h4, h5⟩
  · rw [hread] at h1; cases h1
  · refine ⟨⟨_, [], ?_, hrem, hnomk⟩, ?_⟩
    · rw [h4]
    · rw [h5]; exact hgone
  · refine ⟨⟨_, [Event.try_get_lock (lock_attempt fs X v_new fd)], ?_, hrem, hnomk⟩, ?_⟩
    · rw [h4]; simp
    · rw [h5 _ hne]; exact hgone

/-- C2 amended, at a sample input: `abc_10` is removed for the new version `2`. -/
theorem stale_directory_removed_witness :
    (∃ removals rest,
      (construct sample_root "/cache".toList "abc".toList "2".toList 5000 1 3).log
        = removals ++ Event.make_directory ("abc".toList ++ "_".toList ++ "2".toList) :: rest ∧
      Event.remove_directory ("abc".toList ++ "_".toList ++ "10".toList) ∈ removals ∧
      Event.make_directory ("abc".toList ++ "_".toList ++ "2".toList) ∉ removals) ∧
    (construct sample_root "/cache".toList "abc".toList "2".toList 5000 1 3).entries.lookup
        ("abc".toList ++ "_".toList ++ "10".toList) = none :=
  stale_directory_removed sample_root "/cache".toList "abc".toList "10".toList "2".toList
    5000 1 3 (by decide) (by decide)
    (by rw [← find_eq_none_iff]; decide)

/-! ## Block file names are distinct -/

/-- C9, the code at the failing input: the constructor on a directory that holds the
marker but no block file returns an object that never took the lock (`ownership_lock`
unassigned, no call of `try_get_lock`); its `load_block` for block 0 of 1 then calls the
primary loader, writes the block file, writes the marker and calls `release_lock` with the
unassigned `ownership_lock`. -/
theorem non_owner_writes :
    (construct marked_root "/cache".toList "abc".toList "1.0".toList 5000 1 3).result
      = Outcome.returned non_owner ∧
    (construct marked_root "/cache".toList "abc".toList "1.0".toList 5000 1 3).log
      = [Event.make_directory "abc_1.0".toList] ∧
    cache_dir non_owner
        (construct marked_root "/cache".toList "abc".toList "1.0".toList 5000 1 3).entries
      = some { files := [], complete := true, lock := none } ∧
    (load_block non_owner sample_ok
        { dir := { files := [], complete := true, lock := none }, log := [] } [[], []] 0).world.log
      = [Event.loader_load_block 0, Event.write_block 0, Event.mark_cache_complete,
         Event.release_lock none] ∧
    ((load_block non_owner sample_ok
        { dir := { files := [], complete := true, lock := none }, log := [] }
        [[], []] 0).world.dir.files.lookup "0-5000.cpio".toList).isSome = true := by
  decide

end Aeon
